import Mathlib

/-!
Verification of the ioAL core (`src/alCore.h`): the device/context/source/buffer
data model, the backend interface contract, and the deferred-state-commit
(dirty-flag) processing engine described in the specification.

The repository ships only the interface header `alCore.h`; the engine that
drives it (`alCore.c`, `alPublic.c`) is not present. Interface-shape facts are
embedded directly from the header; behavioural definitions are modelled from
the specification (each such definition says so in its doc comment).
-/

namespace IoAL

/-- Abstract error kinds of the core (spec section 7); `ALenum` error codes in
the header (`AL_OUT_OF_MEMORY`, `AL_NO_ERROR`, ...). -/
inductive ALenum where
  | noError
  | outOfMemory
  | invalidName
  | invalidOperation
  | invalidValue
  | deviceUnavailable
  deriving DecidableEq

/-- The shape of the return type of one member of `__alDeviceInterface`
(src/alCore.h lines 118-302): a `void` return, a nullable handle pointer,
a plain `int` code, or an `ALenum` error code. -/
inductive RetShape where
  | voidRet
  | handleRet
  | intRet
  | enumRet
  deriving DecidableEq

/-- The members of `__alDeviceInterface` in declaration order, each with the
return shape read off its function-pointer type in src/alCore.h:
`enumerate` returns void, `open` returns `__alDeviceImpl *`, `configure`
returns `int`, `close` void, `allocateContext` `__alContextImpl *`,
`freeContext` void, `allocateSource` `__alSourceImpl *`, `freeSource` void,
`allocateBuffer` `__alBufferImpl *`, `freeBuffer` void, `uploadBuffer`
`ALenum`, `commitSource` void, `commitBuffer` void, `commitContext` void,
`upkeep` void. -/
def interfaceOps : List (String × RetShape) :=
  [("enumerate", RetShape.voidRet),
   ("open", RetShape.handleRet),
   ("configure", RetShape.intRet),
   ("close", RetShape.voidRet),
   ("allocateContext", RetShape.handleRet),
   ("freeContext", RetShape.voidRet),
   ("allocateSource", RetShape.handleRet),
   ("freeSource", RetShape.voidRet),
   ("allocateBuffer", RetShape.handleRet),
   ("freeBuffer", RetShape.voidRet),
   ("uploadBuffer", RetShape.enumRet),
   ("commitSource", RetShape.voidRet),
   ("commitBuffer", RetShape.voidRet),
   ("commitContext", RetShape.voidRet),
   ("upkeep", RetShape.voidRet)]

/-- Modelled from the spec: the sticky last-error register (spec sections 3
and 4.7); `alCore.c`, which implements it, is not in the repository. A
failing operation records its error kind only when the register currently
holds `noError` (first-error-wins). -/
def setError (reg e : ALenum) : ALenum :=
  if reg = ALenum.noError then e else reg

/-- Modelled from the spec: querying the sticky error register returns its
current content and clears it (spec section 3: "one-slot unread-error queue",
cleared by query). -/
def alGetError (reg : ALenum) : ALenum × ALenum :=
  (reg, ALenum.noError)

/-- Modelled from the spec: the mutable per-source state payload. The header
marks `__alSource` as "!!! FIXME: Fill in state here."; spec section 9 fixes
the field list for a standard 3D positional-audio model (position, velocity,
gain, pitch, loop flag, attached buffer). -/
structure SourceState where
  position : Int × Int × Int
  velocity : Int × Int × Int
  gain : Int
  pitch : Int
  looping : Bool
  buffer : Option Nat
  deriving DecidableEq

def SourceState.initial : SourceState :=
  ⟨(0, 0, 0), (0, 0, 0), 1, 1, false, none⟩

/-- One externally visible application mutation of a source (spec section
4.6: mutators mark the object dirty and return without a backend call). -/
inductive Mutation where
  | setPosition (p : Int × Int × Int)
  | setVelocity (v : Int × Int × Int)
  | setGain (g : Int)
  | setPitch (p : Int)
  | setLooping (b : Bool)
  | setBuffer (b : Option Nat)
  deriving DecidableEq

def applyMutation (st : SourceState) : Mutation → SourceState
  | Mutation.setPosition p => { st with position := p }
  | Mutation.setVelocity v => { st with velocity := v }
  | Mutation.setGain g => { st with gain := g }
  | Mutation.setPitch p => { st with pitch := p }
  | Mutation.setLooping b => { st with looping := b }
  | Mutation.setBuffer b => { st with buffer := b }

def applyMutations (st : SourceState) (ms : List Mutation) : SourceState :=
  ms.foldl applyMutation st

/-- A source object (`__alSource`, src/alCore.h lines 65-69) extended,
modelled from the spec, with its engine bookkeeping: an opaque handle, the
owning context's handle (one context per source, spec section 5), the state
payload and the dirty flag (spec section 3). -/
structure Source where
  handle : Nat
  ctx : Nat
  state : SourceState
  dirty : Bool
  deriving DecidableEq

/-- Modelled from the spec: the buffer state payload (`__alBuffer` is another
"fill in state here" stub): source format, frequency and sample data (spec
section 3). -/
structure BufferState where
  fmt : Nat
  freq : Nat
  data : List Int
  deriving DecidableEq

def BufferState.initial : BufferState := ⟨0, 0, []⟩

/-- A buffer object (`__alBuffer`, src/alCore.h lines 75-79) with its
spec-modelled engine bookkeeping: handle, state payload and dirty flag. -/
structure Buffer where
  handle : Nat
  state : BufferState
  dirty : Bool
  deriving DecidableEq

/-- Modelled from the spec: context-level (listener) state (spec section 3:
position, orientation, gain, distance-model parameters). -/
structure ListenerState where
  position : Int × Int × Int
  orientation : Int × Int × Int
  gain : Int
  distanceModel : Nat
  deriving DecidableEq

def ListenerState.initial : ListenerState := ⟨(0, 0, 0), (0, 0, 0), 1, 0⟩

/-- A context object (`__alContext`, src/alCore.h lines 85-89) with its
spec-modelled engine bookkeeping: handle, listener block, listener-level
dirty flag, and the per-context sticky error register (spec section 3). -/
structure Context where
  handle : Nat
  listener : ListenerState
  dirty : Bool
  errorReg : ALenum
  deriving DecidableEq

/-- The device object `__alDevice` (src/alCore.h lines 311-318): the bound
interface and backend-private impl handle, the contexts, `bufferCount` and
the device-wide shared buffer list — extended, modelled from the spec, with
the engine bookkeeping the missing `alCore.c` would hold: the source ceiling
fixed at open time (spec section 4.4), a fresh-handle counter, the per-device
source list (each source names its owning context), and the device-level
sticky error register. The bound interface is the index of the claiming
backend in the registration table. -/
structure Device where
  interface : Nat
  impl : Nat
  contexts : List Context
  bufferCount : Nat
  buffers : List Buffer
  sourceCeiling : Nat
  nextHandle : Nat
  sources : List Source
  errorReg : ALenum
  deriving DecidableEq

/-- One observable interaction of the engine with the backend or with the
commit lock, in order of occurrence (spec sections 2 and 4.6). -/
inductive Event where
  | acquireLock
  | backendOpen (idx : Nat) (devname : String)
  | backendAllocContext
  | backendAllocSource (ctx : Nat)
  | backendFreeSource (src : Nat)
  | backendAllocBuffer
  | backendFreeBuffer (buf : Nat)
  | commitBuffer (h : Nat) (snap : BufferState)
  | commitSource (h : Nat) (snap : SourceState)
  | commitContext (h : Nat) (snap : ListenerState)
  | releaseLock
  | upkeep
  deriving DecidableEq

/-- Modelled from the spec: what the registry needs of one registered backend
(`__alDeviceInterfaces`, src/alCore.h line 304). Only `open` has
engine-visible behaviour here: it examines the device name and returns a
backend-private handle, or `none` to decline (src/alCore.h lines 139-151). -/
structure BackendIface where
  openFn : String → Option Nat

/-- A freshly opened device bound to backend interface `iface` with
backend-private handle `impl` and source ceiling `ceiling`. -/
def mkDevice (iface impl ceiling : Nat) : Device :=
  { interface := iface, impl := impl, contexts := [], bufferCount := 0,
    buffers := [], sourceCeiling := ceiling, nextHandle := 0, sources := [],
    errorReg := ALenum.noError }

/-- Modelled from the spec: the registry walk of `alcOpenDevice` (spec
section 4.1; the header only documents it, src/alCore.h lines 104-107):
try each registered backend's `open` in order, stopping at the first
non-null return. Returns the claiming backend's index and impl handle, plus
the trace of `open` invocations. -/
def openDeviceAux (backends : List BackendIface) (idx : Nat) (devname : String) :
    Except ALenum (Nat × Nat) × List Event :=
  match backends with
  | [] => (Except.error ALenum.deviceUnavailable, [])
  | b :: rest =>
    match b.openFn devname with
    | some impl => (Except.ok (idx, impl), [Event.backendOpen idx devname])
    | none =>
      let r := openDeviceAux rest (idx + 1) devname
      (r.1, Event.backendOpen idx devname :: r.2)

/-- Modelled from the spec: device creation (spec section 4.1). On success
the new device is bound to the claiming backend; if every backend declines,
no device is created and the result is `deviceUnavailable`. -/
def openDevice (backends : List BackendIface) (devname : String) (ceiling : Nat) :
    Except ALenum Device × List Event :=
  match openDeviceAux backends 0 devname with
  | (Except.ok (i, impl), tr) => (Except.ok (mkDevice i impl ceiling), tr)
  | (Except.error e, tr) => (Except.error e, tr)

/-- Modelled from the spec: context allocation (spec section 4.3); the
backend's `allocateContext` is invoked and the new context starts clean. -/
def allocateContext (d : Device) : Except ALenum Nat × Device × List Event :=
  (Except.ok d.nextHandle,
   { d with nextHandle := d.nextHandle + 1,
            contexts := d.contexts ++
              [{ handle := d.nextHandle, listener := ListenerState.initial,
                 dirty := false, errorReg := ALenum.noError }] },
   [Event.backendAllocContext])

/-- Modelled from the spec: source allocation (spec section 4.4). The engine
tracks a per-device count and refuses to even attempt backend allocation
past the ceiling fixed at device-open time, failing with `outOfMemory`
deterministically; below the ceiling the backend's `allocateSource` is
invoked and a fresh handle is returned. -/
def allocateSource (d : Device) (ctx : Nat) :
    Except ALenum Nat × Device × List Event :=
  if d.sources.length < d.sourceCeiling then
    (Except.ok d.nextHandle,
     { d with nextHandle := d.nextHandle + 1,
              sources := d.sources ++
                [{ handle := d.nextHandle, ctx := ctx,
                   state := SourceState.initial, dirty := false }] },
     [Event.backendAllocSource ctx])
  else
    (Except.error ALenum.outOfMemory,
     { d with errorReg := setError d.errorReg ALenum.outOfMemory }, [])

/-- Modelled from the spec: freeing a source (spec section 4.4) immediately
releases its allocation slot; the backend's `freeSource` is invoked. -/
def freeSource (d : Device) (h : Nat) : Device × List Event :=
  if d.sources.any (fun s => s.handle == h) then
    ({ d with sources := d.sources.eraseP (fun s => s.handle == h) },
     [Event.backendFreeSource h])
  else
    ({ d with errorReg := setError d.errorReg ALenum.invalidName }, [])

/-- Modelled from the spec: buffer allocation (spec section 4.5) succeeds
liberally at the name level; the backend's `allocateBuffer` is invoked and
`bufferCount` tracks the device-wide buffer pool. -/
def allocateBuffer (d : Device) : Except ALenum Nat × Device × List Event :=
  (Except.ok d.nextHandle,
   { d with nextHandle := d.nextHandle + 1,
            bufferCount := d.bufferCount + 1,
            buffers := d.buffers ++
              [{ handle := d.nextHandle, state := BufferState.initial,
                 dirty := false }] },
   [Event.backendAllocBuffer])

/-- True when some source on the device currently references buffer `h`. -/
def bufferReferenced (d : Device) (h : Nat) : Bool :=
  d.sources.any (fun s => s.state.buffer == some h)

/-- Modelled from the spec: deleting a buffer (spec section 3: deletion
while referenced "must either be deferred or rejected, never silently
corrupting an active Source"). The modelled policy is rejection: deleting a
buffer still referenced by a source fails with `invalidOperation`; deleting
an unreferenced live buffer removes it and invokes the backend's
`freeBuffer`; an unknown handle fails with `invalidName`. -/
def freeBuffer (d : Device) (h : Nat) :
    Except ALenum Unit × Device × List Event :=
  if bufferReferenced d h then
    (Except.error ALenum.invalidOperation,
     { d with errorReg := setError d.errorReg ALenum.invalidOperation }, [])
  else if d.buffers.any (fun b => b.handle == h) then
    (Except.ok (),
     { d with buffers := d.buffers.eraseP (fun b => b.handle == h),
              bufferCount := d.bufferCount - 1 },
     [Event.backendFreeBuffer h])
  else
    (Except.error ALenum.invalidName,
     { d with errorReg := setError d.errorReg ALenum.invalidName }, [])

/-- Modelled from the spec: an externally visible source mutator (spec
section 4.6) buffers the mutation locally, marks the source dirty, and
returns without touching the backend. -/
def mutateSource (d : Device) (h : Nat) (m : Mutation) : Device × List Event :=
  ({ d with sources := d.sources.map (fun s =>
      if s.handle == h then
        { s with state := applyMutation s.state m, dirty := true }
      else s) }, [])

/-- Modelled from the spec: a context-level (listener) mutator (spec section
4.6) records the new listener block, marks the context dirty, and returns
without touching the backend. -/
def mutateListener (d : Device) (c : Nat) (l : ListenerState) :
    Device × List Event :=
  ({ d with contexts := d.contexts.map (fun ctx =>
      if ctx.handle == c then { ctx with listener := l, dirty := true }
      else ctx) }, [])

/-- Modelled from the spec: a buffer-state mutation in the deferred-commit
discipline of spec section 4.6 (the dirty buffer is pushed to the backend
by `commitBuffer` at the next cycle): record the new state, mark the buffer
dirty, return without touching the backend. -/
def bufferData (d : Device) (h : Nat) (bs : BufferState) :
    Device × List Event :=
  ({ d with buffers := d.buffers.map (fun b =>
      if b.handle == h then { b with state := bs, dirty := true }
      else b) }, [])

/-- The `commitBuffer` calls of one processing cycle: every dirty buffer on
the device, with an immutable snapshot (spec section 4.6 step 2). -/
def dirtyBufferCommits (d : Device) : List Event :=
  (d.buffers.filter (fun b => b.dirty)).map
    (fun b => Event.commitBuffer b.handle b.state)

/-- The `commitSource` calls one context contributes to a cycle: the dirty
sources owned by that context (spec section 4.6 step 3). -/
def contextSourceCommits (d : Device) (c : Context) : List Event :=
  (d.sources.filter (fun s => s.ctx == c.handle && s.dirty)).map
    (fun s => Event.commitSource s.handle s.state)

/-- The `commitSource` calls of one processing cycle: for every context on
the device, every dirty source of that context (spec section 4.6 step 3). -/
def dirtySourceCommits (d : Device) : List Event :=
  (d.contexts.map (fun c => contextSourceCommits d c)).flatten

/-- The `commitContext` calls of one processing cycle: every context with
dirty listener-level state (spec section 4.6 step 4). -/
def dirtyContextCommits (d : Device) : List Event :=
  (d.contexts.filter (fun c => c.dirty)).map
    (fun c => Event.commitContext c.handle c.listener)

/-- After a cycle every object on the device is clean. -/
def clearDirty (d : Device) : Device :=
  { d with buffers := d.buffers.map (fun b => { b with dirty := false }),
           sources := d.sources.map (fun s => { s with dirty := false }),
           contexts := d.contexts.map (fun c => { c with dirty := false }) }

/-- Modelled from the spec: one processing cycle (spec section 4.6): acquire
the commit lock; commit every dirty buffer, then every dirty source context
by context, then every dirty context; clear the dirty flags; release the
lock; call `upkeep` with no lock held. -/
def processCycle (d : Device) : Device × List Event :=
  (clearDirty d,
   Event.acquireLock ::
     (dirtyBufferCommits d ++ dirtySourceCommits d ++ dirtyContextCommits d ++
      [Event.releaseLock, Event.upkeep]))

/-- One application-level operation on an open device, for stating
invariants quantified over everything the engine can do. -/
inductive Op where
  | mutate (h : Nat) (m : Mutation)
  | listener (c : Nat) (l : ListenerState)
  | bufData (h : Nat) (bs : BufferState)
  | allocCtx
  | allocSrc (ctx : Nat)
  | freeSrc (h : Nat)
  | allocBuf
  | freeBuf (h : Nat)
  | getError
  | process
  deriving DecidableEq

/-- The state transition and backend trace of one operation. -/
def step (d : Device) : Op → Device × List Event
  | Op.mutate h m => mutateSource d h m
  | Op.listener c l => mutateListener d c l
  | Op.bufData h bs => bufferData d h bs
  | Op.allocCtx => (allocateContext d).2
  | Op.allocSrc ctx => (allocateSource d ctx).2
  | Op.freeSrc h => freeSource d h
  | Op.allocBuf => (allocateBuffer d).2
  | Op.freeBuf h => (freeBuffer d h).2
  | Op.getError => ({ d with errorReg := (alGetError d.errorReg).2 }, [])
  | Op.process => processCycle d

/-- Device states reachable from a freshly opened device by engine
operations. -/
inductive Reachable : Device → Prop where
  | init : ∀ iface impl ceiling, Reachable (mkDevice iface impl ceiling)
  | next : ∀ d op, Reachable d → Reachable (step d op).1

def sourceHandles (d : Device) : List Nat := d.sources.map (fun s => s.handle)

def contextHandles (d : Device) : List Nat := d.contexts.map (fun c => c.handle)

def bufferHandles (d : Device) : List Nat := d.buffers.map (fun b => b.handle)

/-- Well-formedness of a device state: object handles are pairwise distinct
and below the fresh-handle counter, and every source's owning context is a
context of the device. Every reachable state satisfies this; it is the
hypothesis under which per-handle object identity is meaningful. -/
def WF (d : Device) : Prop :=
  (sourceHandles d).Nodup ∧ (contextHandles d).Nodup ∧
  (bufferHandles d).Nodup ∧
  (∀ s ∈ d.sources, s.handle < d.nextHandle) ∧
  (∀ c ∈ d.contexts, c.handle < d.nextHandle) ∧
  (∀ b ∈ d.buffers, b.handle < d.nextHandle) ∧
  (∀ s ∈ d.sources, s.ctx ∈ contextHandles d)

/-! ## Theorems -/

/-- C9: in the Backend Contract, `uploadBuffer` is the only operation that
returns a distinguished `ALenum` error code; `open`, `allocateContext`,
`allocateSource` and `allocateBuffer` signal failure solely by returning a
null handle; and `enumerate`, `close`, `freeContext`, `freeSource`,
`freeBuffer`, `commitSource`, `commitBuffer`, `commitContext` and `upkeep`
return nothing and hence cannot report failure to the engine. -/
theorem uploadBuffer_only_error_code :
    ((interfaceOps.filter (fun p => p.2 == RetShape.enumRet)).map Prod.fst
       = ["uploadBuffer"]) ∧
    ((interfaceOps.filter (fun p => p.2 == RetShape.handleRet)).map Prod.fst
       = ["open", "allocateContext", "allocateSource", "allocateBuffer"]) ∧
    ((interfaceOps.filter (fun p => p.2 == RetShape.voidRet)).map Prod.fst
       = ["enumerate", "close", "freeContext", "freeSource", "freeBuffer",
          "commitSource", "commitBuffer", "commitContext", "upkeep"]) := by
  decide

/-- C6: a failing operation records its error kind only when the sticky
register currently holds `noError`, so after two consecutive failures with
no intervening query the query returns the first error kind; the query
clears the register, so an immediately following query returns `noError`. -/
theorem sticky_error_first_wins (e1 e2 : ALenum)
    (h1 : e1 ≠ ALenum.noError) :
    (∀ r e, r ≠ ALenum.noError → setError r e = r) ∧
    (alGetError (setError (setError ALenum.noError e1) e2)).1 = e1 ∧
    (alGetError
      ((alGetError (setError (setError ALenum.noError e1) e2)).2)).1 =
      ALenum.noError := by
  refine ⟨fun r e hr => ?_, ?_, rfl⟩
  · simp [setError, hr]
  · simp [setError, alGetError, h1]

/-- Witness: the first-error-wins discipline at concrete error kinds. -/
theorem sticky_error_first_wins_witness :
    (∀ r e, r ≠ ALenum.noError → setError r e = r) ∧
    (alGetError (setError (setError ALenum.noError ALenum.outOfMemory)
      ALenum.invalidName)).1 = ALenum.outOfMemory ∧
    (alGetError
      ((alGetError (setError (setError ALenum.noError ALenum.outOfMemory)
        ALenum.invalidName)).2)).1 = ALenum.noError :=
  sticky_error_first_wins ALenum.outOfMemory ALenum.invalidName (by decide)

lemma shift_trace (devname : String) (idx n : Nat) :
    Event.backendOpen idx devname ::
      (List.range n).map (fun k => Event.backendOpen (idx + 1 + k) devname) =
    (List.range (n + 1)).map (fun k => Event.backendOpen (idx + k) devname) := by
  rw [List.range_succ_eq_map, List.map_cons, List.map_map]
  refine congrArg₂ List.cons (by simp) ?_
  apply List.map_congr_left
  intro k _
  have hk : idx + 1 + k = idx + (k + 1) := by omega
  simp [Function.comp, hk]

lemma openDeviceAux_all_decline (devname : String) :
    ∀ (backends : List BackendIface) (idx : Nat),
    (∀ b ∈ backends, b.openFn devname = none) →
    openDeviceAux backends idx devname =
      (Except.error ALenum.deviceUnavailable,
       (List.range backends.length).map
         (fun k => Event.backendOpen (idx + k) devname)) := by
  intro backends
  induction backends with
  | nil => intro idx h; simp [openDeviceAux]
  | cons b rest ih =>
    intro idx h
    have hb : b.openFn devname = none := h b (by simp)
    have hrest : ∀ x ∈ rest, x.openFn devname = none :=
      fun x hx => h x (by simp [hx])
    simp only [openDeviceAux, hb, ih (idx + 1) hrest, List.length_cons]
    exact congrArg (fun t => (Except.error ALenum.deviceUnavailable, t))
      (shift_trace devname idx rest.length)

lemma openDeviceAux_first_claim (devname : String) :
    ∀ (pre : List BackendIface) (b : BackendIface) (post : List BackendIface)
      (impl idx : Nat),
    (∀ x ∈ pre, x.openFn devname = none) →
    b.openFn devname = some impl →
    openDeviceAux (pre ++ b :: post) idx devname =
      (Except.ok (idx + pre.length, impl),
       (List.range (pre.length + 1)).map
         (fun k => Event.backendOpen (idx + k) devname)) := by
  intro pre
  induction pre with
  | nil =>
    intro b post impl idx hpre hb
    simp [openDeviceAux, hb, List.range_succ]
  | cons x rest ih =>
    intro b post impl idx hpre hb
    have hx : x.openFn devname = none := hpre x (by simp)
    have hrest : ∀ y ∈ rest, y.openFn devname = none :=
      fun y hy => hpre y (by simp [hy])
    simp only [List.cons_append, openDeviceAux, hx, List.length_cons,
      List.append_eq]
    rw [ih b post impl (idx + 1) hrest hb]
    refine congrArg₂ Prod.mk ?_ ?_
    · have hk : idx + 1 + rest.length = idx + (rest.length + 1) := by omega
      rw [hk]
    · exact shift_trace devname idx (rest.length + 1)

/-- C5: on a device-open request the registry invokes each registered
backend's `open` in registration order; the first backend returning a
non-null handle is bound to the new device and no later backend is tried;
if every backend declines, no device is created and the result is
`deviceUnavailable`. -/
theorem openDevice_registry_order (backends : List BackendIface)
    (devname : String) (ceiling : Nat) :
    (∀ pre b post impl, backends = pre ++ b :: post →
      (∀ x ∈ pre, x.openFn devname = none) →
      b.openFn devname = some impl →
      openDevice backends devname ceiling =
        (Except.ok (mkDevice pre.length impl ceiling),
         (List.range (pre.length + 1)).map
           (fun k => Event.backendOpen k devname))) ∧
    ((∀ b ∈ backends, b.openFn devname = none) →
      openDevice backends devname ceiling =
        (Except.error ALenum.deviceUnavailable,
         (List.range backends.length).map
           (fun k => Event.backendOpen k devname))) := by
  constructor
  · intro pre b post impl hdecomp hpre hb
    subst hdecomp
    simp [openDevice, openDeviceAux_first_claim devname pre b post impl 0 hpre hb]
  · intro h
    simp [openDevice, openDeviceAux_all_decline devname backends 0 h]

/-- A backend that declines every device name. -/
def declineAll : BackendIface := ⟨fun _ => none⟩

/-- A backend that claims every device name with impl handle 7. -/
def claimAll : BackendIface := ⟨fun _ => some 7⟩

/-- Witness: with a declining backend registered before a claiming one, the
device binds to the second backend and both opens are attempted in order. -/
theorem openDevice_registry_order_witness :
    openDevice [declineAll, claimAll] "default" 4 =
      (Except.ok (mkDevice 1 7 4),
       [Event.backendOpen 0 "default", Event.backendOpen 1 "default"]) := by
  have h := (openDevice_registry_order [declineAll, claimAll] "default" 4).1
    [declineAll] claimAll [] 7 rfl
    (by intro x hx; simp at hx; subst hx; rfl) rfl
  simpa [List.range_succ] using h

/-- `n` consecutive `allocateSource` calls on context `ctx`: the list of
results, the final device, and the combined backend trace. -/
def allocRun (d : Device) (ctx : Nat) : Nat → List (Except ALenum Nat) × Device × List Event
  | 0 => ([], d, [])
  | n + 1 =>
    let r := allocateSource d ctx
    let rest := allocRun r.2.1 ctx n
    (r.1 :: rest.1, rest.2.1, r.2.2 ++ rest.2.2)

lemma shift_ok (base n : Nat) :
    (Except.ok base : Except ALenum Nat) ::
      (List.range n).map (fun i => (Except.ok (base + 1 + i) : Except ALenum Nat)) =
    (List.range (n + 1)).map (fun i => (Except.ok (base + i) : Except ALenum Nat)) := by
  rw [List.range_succ_eq_map, List.map_cons, List.map_map]
  refine congrArg₂ List.cons (by simp) ?_
  apply List.map_congr_left
  intro k _
  have hk : base + 1 + k = base + (k + 1) := by omega
  simp [Function.comp, hk]

lemma allocRun_spec (ctx : Nat) :
    ∀ (n : Nat) (d : Device), d.sources.length + n ≤ d.sourceCeiling →
    (allocRun d ctx n).1 =
        (List.range n).map (fun i => Except.ok (d.nextHandle + i)) ∧
    (allocRun d ctx n).2.1.sources.length = d.sources.length + n ∧
    (allocRun d ctx n).2.1.sourceCeiling = d.sourceCeiling ∧
    (allocRun d ctx n).2.1.nextHandle = d.nextHandle + n ∧
    (allocRun d ctx n).2.2 = List.replicate n (Event.backendAllocSource ctx) := by
  intro n
  induction n with
  | zero => intro d h; simp [allocRun]
  | succ n ih =>
    intro d h
    have hlt : d.sources.length < d.sourceCeiling := by omega
    have hd2 : (allocateSource d ctx).2.1.sources.length = d.sources.length + 1 := by
      simp [allocateSource, hlt]
    have hd2c : (allocateSource d ctx).2.1.sourceCeiling = d.sourceCeiling := by
      simp [allocateSource, hlt]
    have hd2n : (allocateSource d ctx).2.1.nextHandle = d.nextHandle + 1 := by
      simp [allocateSource, hlt]
    obtain ⟨h1, h2, h3, h4, h5⟩ :=
      ih ((allocateSource d ctx).2.1) (by rw [hd2, hd2c]; omega)
    simp only [allocRun]
    refine ⟨?_, ?_, ?_, ?_, ?_⟩
    · rw [h1, hd2n]
      have hr : (allocateSource d ctx).1 = Except.ok d.nextHandle := by
        simp [allocateSource, hlt]
      rw [hr]
      exact shift_ok d.nextHandle n
    · rw [h2, hd2]; omega
    · rw [h3, hd2c]
    · rw [h4, hd2n]; omega
    · rw [h5]
      have hr : (allocateSource d ctx).2.2 = [Event.backendAllocSource ctx] := by
        simp [allocateSource, hlt]
      rw [hr]
      simp [List.replicate_succ]

/-- C1: on a freshly opened device with source ceiling `N`, each of the
first `N` `allocateSource` calls succeeds, with pairwise distinct handles;
exactly `N` backend `allocateSource` invocations occur; and the `(N+1)`-th
call fails with `outOfMemory` without invoking the backend at all. -/
theorem allocateSource_ceiling (iface impl ceiling ctx ctx2 : Nat) :
    ((allocRun (mkDevice iface impl ceiling) ctx ceiling).1 =
        (List.range ceiling).map (fun i => Except.ok i)) ∧
    ((allocRun (mkDevice iface impl ceiling) ctx ceiling).1).Nodup ∧
    ((allocRun (mkDevice iface impl ceiling) ctx ceiling).2.2 =
        List.replicate ceiling (Event.backendAllocSource ctx)) ∧
    ((allocateSource (allocRun (mkDevice iface impl ceiling) ctx ceiling).2.1 ctx2).1 =
        Except.error ALenum.outOfMemory) ∧
    ((allocateSource (allocRun (mkDevice iface impl ceiling) ctx ceiling).2.1 ctx2).2.2 = []) := by
  obtain ⟨h1, h2, h3, h4, h5⟩ :=
    allocRun_spec ctx ceiling (mkDevice iface impl ceiling) (by simp [mkDevice])
  have hres : (allocRun (mkDevice iface impl ceiling) ctx ceiling).1 =
      (List.range ceiling).map (fun i => Except.ok i) := by
    rw [h1]; simp [mkDevice]
  have hfull : ¬ ((allocRun (mkDevice iface impl ceiling) ctx ceiling).2.1.sources.length <
      (allocRun (mkDevice iface impl ceiling) ctx ceiling).2.1.sourceCeiling) := by
    rw [h2, h3]; simp [mkDevice]
  refine ⟨hres, ?_, h5, ?_, ?_⟩
  · rw [hres]
    exact (List.nodup_range ceiling).map (fun a b hab => Except.ok.inj hab)
  · simp [allocateSource, hfull]
  · simp [allocateSource, hfull]

/-- C7: on a device at its source ceiling, freeing any one live source
immediately makes its slot available again: a subsequent `allocateSource`
succeeds — on whichever context of the device requests it — and the backend
allocation is invoked. -/
theorem freeSource_slot_reuse (d : Device) (s : Source) (ctx2 : Nat)
    (hs : s ∈ d.sources) (hfull : d.sources.length = d.sourceCeiling) :
    (allocateSource (freeSource d s.handle).1 ctx2).1 =
      Except.ok (freeSource d s.handle).1.nextHandle ∧
    (allocateSource (freeSource d s.handle).1 ctx2).2.2 =
      [Event.backendAllocSource ctx2] := by
  have hany : d.sources.any (fun x => x.handle == s.handle) = true :=
    List.any_eq_true.mpr ⟨s, hs, by simp⟩
  have hfree : (freeSource d s.handle).1 =
      { d with sources := d.sources.eraseP (fun x => x.handle == s.handle) } := by
    simp [freeSource, hany]
  have hlen : (d.sources.eraseP (fun x => x.handle == s.handle)).length + 1 =
      d.sources.length :=
    List.length_eraseP_add_one hs (by simp)
  have hlt : (freeSource d s.handle).1.sources.length <
      (freeSource d s.handle).1.sourceCeiling := by
    rw [hfree]
    simp only []
    omega
  constructor
  · simp [allocateSource, hlt]
  · simp [allocateSource, hlt]

/-- A concrete one-context device at source ceiling 1 holding one source. -/
def deviceAtCeiling : Device :=
  { interface := 0, impl := 0,
    contexts := [{ handle := 0, listener := ListenerState.initial,
                   dirty := false, errorReg := ALenum.noError }],
    bufferCount := 0, buffers := [], sourceCeiling := 1, nextHandle := 2,
    sources := [{ handle := 1, ctx := 0, state := SourceState.initial,
                  dirty := false }],
    errorReg := ALenum.noError }

/-- Witness: freeing the only source of a full ceiling-1 device lets an
allocation on another context succeed. -/
theorem freeSource_slot_reuse_witness :
    (allocateSource (freeSource deviceAtCeiling 1).1 5).1 =
      Except.ok (freeSource deviceAtCeiling 1).1.nextHandle ∧
    (allocateSource (freeSource deviceAtCeiling 1).1 5).2.2 =
      [Event.backendAllocSource 5] :=
  freeSource_slot_reuse deviceAtCeiling
    { handle := 1, ctx := 0, state := SourceState.initial, dirty := false } 5
    (by decide) (by decide)

/-- No source of the device holds a reference to a buffer that is not in
the device-wide buffer list (no dangling buffer references). -/
def referencesLive (d : Device) : Bool :=
  d.sources.all (fun s =>
    match s.state.buffer with
    | none => true
    | some b => List.elem b (bufferHandles d))

lemma referencesLive_iff (d : Device) :
    referencesLive d = true ↔
      ∀ s ∈ d.sources, ∀ b, s.state.buffer = some b → b ∈ bufferHandles d := by
  rw [referencesLive, List.all_eq_true]
  constructor
  · intro hall s hs b hb
    have h := hall s hs
    rw [hb] at h
    exact List.elem_iff.mp h
  · intro hp s hs
    cases hsb : s.state.buffer with
    | none => rfl
    | some b => exact List.elem_iff.mpr (hp s hs b hsb)

lemma handle_mem_eraseP (l : List Buffer) (b h : Nat)
    (hb : b ∈ l.map (fun x => x.handle)) (hne : b ≠ h) :
    b ∈ (l.eraseP (fun x => x.handle == h)).map (fun x => x.handle) := by
  induction l with
  | nil => simp at hb
  | cons x rest ih =>
    rw [List.eraseP_cons]
    simp only [List.map_cons, List.mem_cons] at hb
    by_cases hx : x.handle == h
    · rw [hx, cond_true]
      rcases hb with h1 | h1
      · have hxh : x.handle = h := by simpa using hx
        exact absurd (h1.trans hxh) hne
      · exact h1
    · rw [Bool.of_not_eq_true hx, cond_false]
      simp only [List.map_cons, List.mem_cons]
      rcases hb with h1 | h1
      · exact Or.inl h1
      · exact Or.inr (ih h1)

/-- C8: deleting a buffer still referenced by a source fails with
`invalidOperation` and changes neither the buffer list nor any source; and
`freeBuffer` preserves the no-dangling-reference invariant in every case,
so no execution leaves a source holding a reference to a freed buffer. -/
theorem freeBuffer_referenced_safe (d : Device) (h : Nat) :
    (bufferReferenced d h = true →
      (freeBuffer d h).1 = Except.error ALenum.invalidOperation ∧
      (freeBuffer d h).2.1.buffers = d.buffers ∧
      (freeBuffer d h).2.1.sources = d.sources) ∧
    (referencesLive d = true → referencesLive (freeBuffer d h).2.1 = true) := by
  constructor
  · intro href
    refine ⟨?_, ?_, ?_⟩ <;> simp [freeBuffer, href]
  · intro hlive
    rw [referencesLive_iff] at hlive
    rw [referencesLive_iff]
    by_cases href : bufferReferenced d h
    · intro s hsmem b hsb
      have hsm : s ∈ d.sources := by simpa [freeBuffer, href] using hsmem
      have hb : b ∈ bufferHandles d := hlive s hsm b hsb
      simpa [freeBuffer, href, bufferHandles] using hb
    · by_cases hex : d.buffers.any (fun x => x.handle == h)
      · intro s hsmem b hsb
        have hsm : s ∈ d.sources := by simpa [freeBuffer, href, hex] using hsmem
        have hb : b ∈ bufferHandles d := hlive s hsm b hsb
        have hbh : b ≠ h := by
          intro he
          subst he
          exact href (List.any_eq_true.mpr ⟨s, hsm, by simp [hsb]⟩)
        have hgoal := handle_mem_eraseP d.buffers b h
          (by simpa [bufferHandles] using hb) hbh
        simpa [freeBuffer, href, hex, bufferHandles] using hgoal
      · intro s hsmem b hsb
        have hsm : s ∈ d.sources := by simpa [freeBuffer, href, hex] using hsmem
        have hb : b ∈ bufferHandles d := hlive s hsm b hsb
        simpa [freeBuffer, href, hex, bufferHandles] using hb

/-- A concrete device whose only source references its only buffer. -/
def deviceWithRefBuffer : Device :=
  { interface := 0, impl := 0,
    contexts := [{ handle := 0, listener := ListenerState.initial,
                   dirty := false, errorReg := ALenum.noError }],
    bufferCount := 1,
    buffers := [{ handle := 1, state := BufferState.initial, dirty := false }],
    sourceCeiling := 4, nextHandle := 3,
    sources := [{ handle := 2, ctx := 0,
                  state := { SourceState.initial with buffer := some 1 },
                  dirty := false }],
    errorReg := ALenum.noError }

/-- Witness: deleting the referenced buffer of the concrete device is
rejected with `invalidOperation` and leaves no dangling reference. -/
theorem freeBuffer_referenced_safe_witness :
    ((freeBuffer deviceWithRefBuffer 1).1 =
        Except.error ALenum.invalidOperation ∧
      (freeBuffer deviceWithRefBuffer 1).2.1.buffers =
        deviceWithRefBuffer.buffers ∧
      (freeBuffer deviceWithRefBuffer 1).2.1.sources =
        deviceWithRefBuffer.sources) ∧
    referencesLive (freeBuffer deviceWithRefBuffer 1).2.1 = true :=
  ⟨(freeBuffer_referenced_safe deviceWithRefBuffer 1).1 (by decide),
   (freeBuffer_referenced_safe deviceWithRefBuffer 1).2 (by decide)⟩

lemma step_bufferCount_inv (d : Device) (op : Op)
    (hinv : d.bufferCount = d.buffers.length) :
    (step d op).1.bufferCount = (step d op).1.buffers.length := by
  cases op with
  | mutate h m => simp [step, mutateSource, hinv]
  | listener c l => simp [step, mutateListener, hinv]
  | bufData h bs => simp [step, bufferData, hinv]
  | allocCtx => simp [step, allocateContext, hinv]
  | allocSrc ctx =>
    simp only [step, allocateSource]
    split <;> simp [hinv]
  | freeSrc h =>
    simp only [step, freeSource]
    split <;> simp [hinv]
  | allocBuf => simp [step, allocateBuffer, hinv]
  | freeBuf h =>
    simp only [step, freeBuffer]
    split
    · simp [hinv]
    · split
      · rename_i hex
        obtain ⟨b, hbmem, hbh⟩ := List.any_eq_true.mp hex
        have hlen := List.length_eraseP_add_one (p := fun x => x.handle == h) hbmem hbh
        simp only []
        omega
      · simp [hinv]
  | getError => simp [step, hinv]
  | process => simp [step, processCycle, clearDirty, hinv]

/-- C10: in every reachable device state `bufferCount` equals the length of
the device-wide buffer list; `allocateBuffer` increments both by one,
`freeBuffer` decrements both by one exactly when it removes a live
unreferenced buffer, and no other operation changes `bufferCount`. -/
theorem bufferCount_invariant :
    (∀ d, Reachable d → d.bufferCount = d.buffers.length) ∧
    (∀ d, (step d Op.allocBuf).1.bufferCount = d.bufferCount + 1 ∧
          (step d Op.allocBuf).1.buffers.length = d.buffers.length + 1) ∧
    (∀ d h, d.buffers.any (fun b => b.handle == h) = true →
          bufferReferenced d h = false →
          (step d (Op.freeBuf h)).1.bufferCount = d.bufferCount - 1 ∧
          (step d (Op.freeBuf h)).1.buffers.length + 1 = d.buffers.length) ∧
    (∀ d op, op ≠ Op.allocBuf → (∀ h, op ≠ Op.freeBuf h) →
          (step d op).1.bufferCount = d.bufferCount) := by
  refine ⟨?_, ?_, ?_, ?_⟩
  · intro d hr
    induction hr with
    | init iface impl ceiling => simp [mkDevice]
    | next d op _ ih => exact step_bufferCount_inv d op ih
  · intro d
    constructor <;> simp [step, allocateBuffer]
  · intro d h hex href
    constructor
    · simp [step, freeBuffer, href, hex]
    · obtain ⟨b, hbmem, hbh⟩ := List.any_eq_true.mp hex
      have hlen := List.length_eraseP_add_one (p := fun x => x.handle == h) hbmem hbh
      simp only [step, freeBuffer, href, Bool.false_eq_true, if_false, hex,
        if_true]
      exact hlen
  · intro d op hna hnf
    cases op with
    | mutate h m => simp [step, mutateSource]
    | listener c l => simp [step, mutateListener]
    | bufData h bs => simp [step, bufferData]
    | allocCtx => simp [step, allocateContext]
    | allocSrc ctx =>
      simp only [step, allocateSource]
      split <;> simp
    | freeSrc h =>
      simp only [step, freeSource]
      split <;> simp
    | allocBuf => exact absurd rfl hna
    | freeBuf h => exact absurd rfl (hnf h)
    | getError => simp [step]
    | process => simp [step, processCycle, clearDirty]

/-- Witness: the invariant at a freshly opened device, the decrement on
deleting the just-allocated unreferenced buffer of a concrete device, and
the preservation of the count by an unrelated operation. -/
theorem bufferCount_invariant_witness :
    (mkDevice 0 0 1).bufferCount = (mkDevice 0 0 1).buffers.length ∧
    (step (step deviceWithRefBuffer Op.allocBuf).1 (Op.freeBuf 3)).1.bufferCount =
      (step deviceWithRefBuffer Op.allocBuf).1.bufferCount - 1 ∧
    (step deviceWithRefBuffer Op.getError).1.bufferCount =
      deviceWithRefBuffer.bufferCount :=
  ⟨bufferCount_invariant.1 (mkDevice 0 0 1) (Reachable.init 0 0 1),
   (bufferCount_invariant.2.2.1 (step deviceWithRefBuffer Op.allocBuf).1 3
      (by decide) (by decide)).1,
   bufferCount_invariant.2.2.2 deviceWithRefBuffer Op.getError
      (by intro heq; cases heq) (by intro h heq; cases heq)⟩

/-- The phase an event belongs to within one processing cycle: lock
acquisition, buffer commits, source commits, context commits, lock release,
upkeep (spec section 4.6 steps 1-6). -/
def phase : Event → Nat
  | Event.commitBuffer _ _ => 1
  | Event.commitSource _ _ => 2
  | Event.commitContext _ _ => 3
  | Event.releaseLock => 4
  | Event.upkeep => 5
  | _ => 0

def Event.isCommitBuffer : Event → Bool
  | Event.commitBuffer _ _ => true
  | _ => false

def Event.isCommitSource : Event → Bool
  | Event.commitSource _ _ => true
  | _ => false

def Event.isCommitContext : Event → Bool
  | Event.commitContext _ _ => true
  | _ => false

def Event.isReleaseLock : Event → Bool
  | Event.releaseLock => true
  | _ => false

def Event.isUpkeep : Event → Bool
  | Event.upkeep => true
  | _ => false

lemma phase_of_isCommitBuffer {e : Event} (h : e.isCommitBuffer = true) :
    phase e = 1 := by
  cases e <;> simp_all [Event.isCommitBuffer, phase]

lemma phase_of_isCommitSource {e : Event} (h : e.isCommitSource = true) :
    phase e = 2 := by
  cases e <;> simp_all [Event.isCommitSource, phase]

lemma phase_of_isCommitContext {e : Event} (h : e.isCommitContext = true) :
    phase e = 3 := by
  cases e <;> simp_all [Event.isCommitContext, phase]

lemma phase_of_isReleaseLock {e : Event} (h : e.isReleaseLock = true) :
    phase e = 4 := by
  cases e <;> simp_all [Event.isReleaseLock, phase]

lemma phase_of_isUpkeep {e : Event} (h : e.isUpkeep = true) :
    phase e = 5 := by
  cases e <;> simp_all [Event.isUpkeep, phase]

lemma phase_dirtyBufferCommits {d : Device} {e : Event}
    (he : e ∈ dirtyBufferCommits d) : phase e = 1 := by
  simp only [dirtyBufferCommits, List.mem_map] at he
  obtain ⟨b, _, rfl⟩ := he
  rfl

lemma phase_dirtySourceCommits {d : Device} {e : Event}
    (he : e ∈ dirtySourceCommits d) : phase e = 2 := by
  simp only [dirtySourceCommits, List.mem_flatten, List.mem_map] at he
  obtain ⟨l, ⟨c, _, rfl⟩, hel⟩ := he
  simp only [contextSourceCommits, List.mem_map] at hel
  obtain ⟨s, _, rfl⟩ := hel
  rfl

lemma phase_dirtyContextCommits {d : Device} {e : Event}
    (he : e ∈ dirtyContextCommits d) : phase e = 3 := by
  simp only [dirtyContextCommits, List.mem_map] at he
  obtain ⟨c, _, rfl⟩ := he
  rfl

lemma pairwise_phase_of_const {n : Nat} {l : List Event}
    (h : ∀ e ∈ l, phase e = n) :
    List.Pairwise (fun a b => phase a ≤ phase b) l :=
  List.pairwise_of_forall_mem_list (fun a ha b hb => by rw [h a ha, h b hb])

/-- The events of one processing cycle occur in nondecreasing phase order. -/
lemma processCycle_pairwise (d : Device) :
    List.Pairwise (fun a b => phase a ≤ phase b) (processCycle d).2 := by
  have hB := fun e he => phase_dirtyBufferCommits (d := d) (e := e) he
  have hS := fun e he => phase_dirtySourceCommits (d := d) (e := e) he
  have hC := fun e he => phase_dirtyContextCommits (d := d) (e := e) he
  simp only [processCycle]
  refine List.pairwise_cons.mpr ⟨fun e _ => Nat.zero_le _, ?_⟩
  refine List.pairwise_append.mpr ⟨?_, ?_, ?_⟩
  · refine List.pairwise_append.mpr ⟨?_, pairwise_phase_of_const hC, ?_⟩
    · refine List.pairwise_append.mpr
        ⟨pairwise_phase_of_const hB, pairwise_phase_of_const hS, ?_⟩
      intro a ha b hb
      rw [hB a ha, hS b hb]
      omega
    · intro a ha b hb
      rw [hC b hb]
      rcases List.mem_append.mp ha with h1 | h1
      · rw [hB a h1]; omega
      · rw [hS a h1]; omega
  · refine List.pairwise_cons.mpr ⟨?_, List.pairwise_singleton _ _⟩
    intro e he
    simp only [List.mem_singleton] at he
    subst he
    simp [phase]
  · intro a ha b hb
    simp only [List.mem_cons, List.not_mem_nil, or_false] at hb
    have hb4 : 4 ≤ phase b := by
      rcases hb with rfl | rfl
      · simp [phase]
      · simp [phase]
    have ha3 : phase a ≤ 3 := by
      rcases List.mem_append.mp ha with h1 | h1
      · rcases List.mem_append.mp h1 with h2 | h2
        · rw [hB a h2]; omega
        · rw [hS a h2]; omega
      · rw [hC a h1]
    omega

lemma lt_of_phase_discr (tr : List Event)
    (hpw : List.Pairwise (fun a b => phase a ≤ phase b) tr)
    (p q : Event → Bool)
    (hp0 : p Event.acquireLock = false) (hq0 : q Event.acquireLock = false)
    (hlt : ∀ e e', p e = true → q e' = true → phase e < phase e')
    (i j : Nat)
    (hi : p (tr.getD i Event.acquireLock) = true)
    (hj : q (tr.getD j Event.acquireLock) = true) : i < j := by
  have hib : i < tr.length := by
    by_contra hc
    push_neg at hc
    rw [List.getD_eq_default tr Event.acquireLock hc, hp0] at hi
    exact Bool.noConfusion hi
  have hjb : j < tr.length := by
    by_contra hc
    push_neg at hc
    rw [List.getD_eq_default tr Event.acquireLock hc, hq0] at hj
    exact Bool.noConfusion hj
  rw [List.getD_eq_get tr Event.acquireLock hib] at hi
  rw [List.getD_eq_get tr Event.acquireLock hjb] at hj
  rcases Nat.lt_trichotomy i j with h | h | h
  · exact h
  · subst h
    have hc := hlt _ _ hi hj
    exact absurd hc (Nat.lt_irrefl _)
  · have hle := List.pairwise_iff_get.mp hpw ⟨j, hjb⟩ ⟨i, hib⟩ h
    have hc := hlt _ _ hi hj
    omega

/-- C3: within one processing cycle every backend `commitBuffer` call
precedes every `commitSource` call, every `commitSource` call precedes
every `commitContext` call, and `upkeep` happens only after the commit
lock is released. -/
theorem processCycle_commit_order (d : Device) :
    (∀ i j, ((processCycle d).2.getD i Event.acquireLock).isCommitBuffer = true →
        ((processCycle d).2.getD j Event.acquireLock).isCommitSource = true →
        i < j) ∧
    (∀ i j, ((processCycle d).2.getD i Event.acquireLock).isCommitSource = true →
        ((processCycle d).2.getD j Event.acquireLock).isCommitContext = true →
        i < j) ∧
    (∀ i j, ((processCycle d).2.getD i Event.acquireLock).isReleaseLock = true →
        ((processCycle d).2.getD j Event.acquireLock).isUpkeep = true →
        i < j) := by
  have hpw := processCycle_pairwise d
  refine ⟨?_, ?_, ?_⟩ <;> intro i j hi hj
  · exact lt_of_phase_discr _ hpw _ _ rfl rfl
      (fun e e' he he' => by
        rw [phase_of_isCommitBuffer he, phase_of_isCommitSource he']; omega)
      i j hi hj
  · exact lt_of_phase_discr _ hpw _ _ rfl rfl
      (fun e e' he he' => by
        rw [phase_of_isCommitSource he, phase_of_isCommitContext he']; omega)
      i j hi hj
  · exact lt_of_phase_discr _ hpw _ _ rfl rfl
      (fun e e' he he' => by
        rw [phase_of_isReleaseLock he, phase_of_isUpkeep he']; omega)
      i j hi hj

/-- A concrete device with one dirty buffer, one dirty source and one dirty
context: its cycle trace exercises all five phases. -/
def deviceAllDirty : Device :=
  { interface := 0, impl := 0,
    contexts := [{ handle := 0, listener := ListenerState.initial,
                   dirty := true, errorReg := ALenum.noError }],
    bufferCount := 1,
    buffers := [{ handle := 1, state := BufferState.initial, dirty := true }],
    sourceCeiling := 4, nextHandle := 3,
    sources := [{ handle := 2, ctx := 0, state := SourceState.initial,
                  dirty := true }],
    errorReg := ALenum.noError }

/-- Witness: on the all-dirty concrete device, the buffer commit (index 1)
precedes the source commit (index 2), which precedes the context commit
(index 3), and the lock release (index 4) precedes upkeep (index 5). -/
theorem processCycle_commit_order_witness :
    (1 : Nat) < 2 ∧ (2 : Nat) < 3 ∧ (4 : Nat) < 5 :=
  ⟨(processCycle_commit_order deviceAllDirty).1 1 2 (by decide) (by decide),
   (processCycle_commit_order deviceAllDirty).2.1 2 3 (by decide) (by decide),
   (processCycle_commit_order deviceAllDirty).2.2 4 5 (by decide) (by decide)⟩

/-- A sequence of application mutations applied to source `h` between two
processing cycles. -/
def mutateRun (d : Device) (h : Nat) : List Mutation → Device × List Event
  | [] => (d, [])
  | m :: ms =>
    let r := mutateSource d h m
    let rest := mutateRun r.1 h ms
    (rest.1, r.2 ++ rest.2)

/-- Recognizes a backend `commitSource` call for source handle `h`. -/
def isCommitSourceFor (h : Nat) : Event → Bool
  | Event.commitSource h2 _ => h2 == h
  | _ => false

lemma mutateRun_events (h : Nat) :
    ∀ (ms : List Mutation) (d : Device), (mutateRun d h ms).2 = [] := by
  intro ms
  induction ms with
  | nil => intro d; rfl
  | cons m ms ih =>
    intro d
    simp [mutateRun, mutateSource, ih]

lemma mutateRun_contexts (h : Nat) :
    ∀ (ms : List Mutation) (d : Device),
      (mutateRun d h ms).1.contexts = d.contexts := by
  intro ms
  induction ms with
  | nil => intro d; rfl
  | cons m ms ih =>
    intro d
    simp [mutateRun, ih, mutateSource]

lemma mutateRun_sources (h : Nat) :
    ∀ (ms : List Mutation) (d : Device),
    (mutateRun d h ms).1.sources =
      d.sources.map (fun s =>
        if s.handle == h then
          { s with state := applyMutations s.state ms,
                   dirty := (s.dirty || !ms.isEmpty) }
        else s) := by
  intro ms
  induction ms with
  | nil =>
    intro d
    have hid : ∀ s ∈ d.sources,
        (if s.handle == h then
          { s with state := applyMutations s.state ([] : List Mutation),
                   dirty := (s.dirty || !(List.isEmpty ([] : List Mutation))) }
         else s) = s := by
      intro s _
      by_cases hs : s.handle == h
      · simp [hs, applyMutations]
      · simp [hs]
    exact ((List.map_congr_left hid).trans (List.map_id' _)).symm
  | cons m ms ih =>
    intro d
    have hstep : (mutateRun d h (m :: ms)).1.sources =
        (mutateRun (mutateSource d h m).1 h ms).1.sources := rfl
    rw [hstep, ih]
    simp only [mutateSource, List.map_map]
    apply List.map_congr_left
    intro s _
    by_cases hs : s.handle == h
    · simp [Function.comp, hs, applyMutations]
    · simp [Function.comp, hs]

lemma mutateRun_sourceHandles (h : Nat) (ms : List Mutation) (d : Device) :
    sourceHandles (mutateRun d h ms).1 = sourceHandles d := by
  rw [sourceHandles, mutateRun_sources h ms d, List.map_map, sourceHandles]
  apply List.map_congr_left
  intro s _
  by_cases hs : s.handle == h
  · simp [Function.comp, hs]
  · simp [Function.comp, hs]

lemma filter_sources_self {l : List Source} {s0 : Source}
    (hnd : (l.map (fun s => s.handle)).Nodup) (hmem : s0 ∈ l) :
    l.filter (fun s => s.handle == s0.handle) = [s0] := by
  induction l with
  | nil => cases hmem
  | cons x rest ih =>
    simp only [List.map_cons, List.nodup_cons] at hnd
    obtain ⟨hx, hrest⟩ := hnd
    rcases List.mem_cons.mp hmem with rfl | hmem2
    · rw [List.filter_cons, if_pos (by simp)]
      have hnil : rest.filter (fun s => s.handle == s0.handle) = [] := by
        apply List.filter_eq_nil_iff.mpr
        intro a ha hpa
        have hae : a.handle = s0.handle := by simpa using hpa
        exact hx (hae ▸ List.mem_map.mpr ⟨a, ha, rfl⟩)
      rw [hnil]
    · rw [List.filter_cons, if_neg ?hneq]
      · exact ih hrest hmem2
      case hneq =>
        intro hc
        have hxe : x.handle = s0.handle := by simpa using hc
        exact hx (hxe ▸ List.mem_map.mpr ⟨s0, hmem2, rfl⟩)

lemma contextSourceCommits_filter (d : Device) (c : Context) (s0 : Source)
    (hnd : (sourceHandles d).Nodup) (hmem : s0 ∈ d.sources) :
    (contextSourceCommits d c).filter (isCommitSourceFor s0.handle) =
      if s0.ctx == c.handle && s0.dirty then
        [Event.commitSource s0.handle s0.state]
      else [] := by
  rw [contextSourceCommits, List.filter_map]
  have hcomp : ((isCommitSourceFor s0.handle) ∘
      (fun s : Source => Event.commitSource s.handle s.state)) =
      fun s : Source => s.handle == s0.handle := by
    funext s
    rfl
  rw [hcomp, List.filter_filter]
  have hcomm : (d.sources.filter
        (fun s => (s.handle == s0.handle) && (s.ctx == c.handle && s.dirty))) =
      (d.sources.filter
        (fun s => (s.ctx == c.handle && s.dirty) && (s.handle == s0.handle))) := by
    apply List.filter_congr
    intro s _
    rw [Bool.and_comm]
  rw [hcomm, ← List.filter_filter,
    filter_sources_self hnd hmem]
  by_cases hcd : s0.ctx == c.handle && s0.dirty
  · rw [List.filter_cons, if_pos hcd, if_pos hcd]
    rfl
  · rw [List.filter_cons, if_neg hcd, if_neg hcd]
    rfl

lemma flatten_ctx_single (ev : Event) (x : Nat) (dd : Bool) :
    ∀ (cs : List Context), (cs.map (fun c => c.handle)).Nodup →
    x ∈ cs.map (fun c => c.handle) →
    ((cs.map (fun c => if x == c.handle && dd then [ev] else [])).flatten =
      if dd then [ev] else []) := by
  intro cs
  induction cs with
  | nil => intro _ hx; cases hx
  | cons c rest ih =>
    intro hnd hx
    simp only [List.map_cons, List.nodup_cons] at hnd
    obtain ⟨hc, hrest⟩ := hnd
    simp only [List.map_cons, List.mem_cons] at hx
    simp only [List.map_cons, List.flatten_cons]
    rcases hx with rfl | hx2
    · have htail :
          ((rest.map (fun c2 => if c.handle == c2.handle && dd then [ev] else [])).flatten) = [] := by
        apply List.flatten_eq_nil_iff.mpr
        intro l hl
        obtain ⟨c2, hc2, rfl⟩ := List.mem_map.mp hl
        have hne : (c.handle == c2.handle) = false := by
          apply beq_eq_false_iff_ne.mpr
          intro he
          exact hc (he ▸ List.mem_map.mpr ⟨c2, hc2, rfl⟩)
        simp [hne]
      rw [htail, List.append_nil]
      simp
    · have hne : (x == c.handle) = false := by
        apply beq_eq_false_iff_ne.mpr
        intro he
        exact hc (he ▸ hx2)
      rw [hne]
      simp only [Bool.false_and, Bool.false_eq_true, if_false, List.nil_append]
      exact ih hrest hx2

lemma dirtySourceCommits_filter (d : Device) (s0 : Source)
    (hnd : (sourceHandles d).Nodup) (hcnd : (contextHandles d).Nodup)
    (hmem : s0 ∈ d.sources) (hctx : s0.ctx ∈ contextHandles d) :
    (dirtySourceCommits d).filter (isCommitSourceFor s0.handle) =
      if s0.dirty then [Event.commitSource s0.handle s0.state] else [] := by
  rw [dirtySourceCommits, List.filter_flatten, List.map_map]
  have hmapeq : (d.contexts.map
        ((List.filter (isCommitSourceFor s0.handle)) ∘ (contextSourceCommits d)))
      = d.contexts.map (fun c =>
          if s0.ctx == c.handle && s0.dirty then
            [Event.commitSource s0.handle s0.state]
          else []) := by
    apply List.map_congr_left
    intro c _
    exact contextSourceCommits_filter d c s0 hnd hmem
  rw [hmapeq]
  exact flatten_ctx_single (Event.commitSource s0.handle s0.state)
    s0.ctx s0.dirty d.contexts hcnd hctx

lemma processCycle_filter_commitSource (d : Device) (h : Nat) :
    (processCycle d).2.filter (isCommitSourceFor h) =
      (dirtySourceCommits d).filter (isCommitSourceFor h) := by
  have hB : (dirtyBufferCommits d).filter (isCommitSourceFor h) = [] := by
    apply List.filter_eq_nil_iff.mpr
    intro e he
    simp only [dirtyBufferCommits, List.mem_map] at he
    obtain ⟨b, _, rfl⟩ := he
    simp [isCommitSourceFor]
  have hC : (dirtyContextCommits d).filter (isCommitSourceFor h) = [] := by
    apply List.filter_eq_nil_iff.mpr
    intro e he
    simp only [dirtyContextCommits, List.mem_map] at he
    obtain ⟨c, _, rfl⟩ := he
    simp [isCommitSourceFor]
  simp [processCycle, List.filter_cons, List.filter_append, hB, hC,
    isCommitSourceFor]

/-- C2: for every sequence of application mutations applied to one source
between two cycles, the mutations themselves invoke no backend call, and at
the next processing cycle the backend receives exactly one `commitSource`
call for that source, whose snapshot is the source's final state at the
cycle boundary; a source that is clean at a cycle receives no
`commitSource` call in that cycle. -/
theorem commitSource_exactly_once (d : Device) (s0 : Source)
    (ms : List Mutation) (hwf : WF d) (hmem : s0 ∈ d.sources) :
    ((mutateRun d s0.handle ms).2 = []) ∧
    (ms ≠ [] →
      (processCycle (mutateRun d s0.handle ms).1).2.filter
          (isCommitSourceFor s0.handle) =
        [Event.commitSource s0.handle (applyMutations s0.state ms)]) ∧
    (s0.dirty = false →
      (processCycle d).2.filter (isCommitSourceFor s0.handle) = []) := by
  obtain ⟨hnd, hcnd, _, _, _, _, hctx⟩ := hwf
  refine ⟨mutateRun_events s0.handle ms d, ?_, ?_⟩
  · intro hne
    have hie : ms.isEmpty = false := List.isEmpty_eq_false.mpr hne
    have hs1mem :
        ({ s0 with state := applyMutations s0.state ms, dirty := true } : Source)
          ∈ (mutateRun d s0.handle ms).1.sources := by
      rw [mutateRun_sources]
      have hmm := List.mem_map_of_mem (fun s : Source =>
        if s.handle == s0.handle then
          { s with state := applyMutations s.state ms,
                   dirty := (s.dirty || !ms.isEmpty) }
        else s) hmem
      simpa [beq_self_eq_true, hie] using hmm
    have hnd1 : (sourceHandles (mutateRun d s0.handle ms).1).Nodup := by
      rw [mutateRun_sourceHandles]
      exact hnd
    have hctxs1 : contextHandles (mutateRun d s0.handle ms).1 = contextHandles d := by
      rw [contextHandles, mutateRun_contexts, contextHandles]
    have hcnd1 : (contextHandles (mutateRun d s0.handle ms).1).Nodup := by
      rw [hctxs1]
      exact hcnd
    have hctx1 :
        ({ s0 with state := applyMutations s0.state ms, dirty := true } : Source).ctx
          ∈ contextHandles (mutateRun d s0.handle ms).1 := by
      rw [hctxs1]
      exact hctx s0 hmem
    rw [processCycle_filter_commitSource]
    have hfinal := dirtySourceCommits_filter (mutateRun d s0.handle ms).1
      ({ s0 with state := applyMutations s0.state ms, dirty := true })
      hnd1 hcnd1 hs1mem hctx1
    simpa using hfinal
  · intro hclean
    rw [processCycle_filter_commitSource,
      dirtySourceCommits_filter d s0 hnd hcnd hmem (hctx s0 hmem), hclean]
    simp

/-- Witness: mutating the clean source of the concrete device twice yields,
at the next cycle, exactly one `commitSource` with the final state; the
untouched clean device commits no source. -/
theorem commitSource_exactly_once_witness :
    ((mutateRun deviceAtCeiling 1 [Mutation.setGain 2, Mutation.setGain 3]).2 = []) ∧
    ((processCycle (mutateRun deviceAtCeiling 1
        [Mutation.setGain 2, Mutation.setGain 3]).1).2.filter
        (isCommitSourceFor 1) =
      [Event.commitSource 1 (applyMutations SourceState.initial
        [Mutation.setGain 2, Mutation.setGain 3])]) ∧
    ((processCycle deviceAtCeiling).2.filter (isCommitSourceFor 1) = []) := by
  obtain ⟨h1, h2, h3⟩ := commitSource_exactly_once deviceAtCeiling
    { handle := 1, ctx := 0, state := SourceState.initial, dirty := false }
    [Mutation.setGain 2, Mutation.setGain 3] (by unfold WF; decide) (by decide)
  exact ⟨h1, h2 (by decide), h3 (by decide)⟩

lemma dirty_pres_id {α : Type} (fh : α → Nat) (fd : α → Bool) {l : List α}
    (hnd : (l.map fh).Nodup)
    {x : α} (hx : x ∈ l) (hd : fd x = true)
    {y : α} (hy : y ∈ l) (hh : fh y = fh x) : fd y = true := by
  have hyx := List.inj_on_of_nodup_map hnd hy hx hh
  rw [hyx]
  exact hd

lemma dirty_pres_map {α : Type} (fh : α → Nat) (fd : α → Bool) {l : List α}
    (hnd : (l.map fh).Nodup) (mf : α → α)
    (hhandle : ∀ t, fh (mf t) = fh t)
    (hdirty : ∀ t, fd t = true → fd (mf t) = true)
    {x : α} (hx : x ∈ l) (hd : fd x = true)
    {y : α} (hy : y ∈ l.map mf) (hh : fh y = fh x) : fd y = true := by
  obtain ⟨t, ht, rfl⟩ := List.mem_map.mp hy
  have hth : fh t = fh x := (hhandle t) ▸ hh
  have hts : t = x := List.inj_on_of_nodup_map hnd ht hx hth
  exact hdirty t (hts ▸ hd)

lemma dirty_pres_eraseP {α : Type} (fh : α → Nat) (fd : α → Bool) {l : List α}
    (hnd : (l.map fh).Nodup) (p : α → Bool)
    {x : α} (hx : x ∈ l) (hd : fd x = true)
    {y : α} (hy : y ∈ l.eraseP p) (hh : fh y = fh x) : fd y = true :=
  dirty_pres_id fh fd hnd hx hd (List.mem_of_mem_eraseP hy) hh

lemma dirty_pres_append_fresh {α : Type} (fh : α → Nat) (fd : α → Bool)
    {l : List α} {n : Nat}
    (hnd : (l.map fh).Nodup) (hbound : ∀ t ∈ l, fh t < n)
    (new : α) (hnew : fh new = n)
    {x : α} (hx : x ∈ l) (hd : fd x = true)
    {y : α} (hy : y ∈ l ++ [new]) (hh : fh y = fh x) : fd y = true := by
  rcases List.mem_append.mp hy with h1 | h1
  · exact dirty_pres_id fh fd hnd hx hd h1 hh
  · simp only [List.mem_singleton] at h1
    subst h1
    have hxb := hbound x hx
    rw [hnew] at hh
    omega

/-- C4: every externally visible mutator (source state, listener state,
buffer data) emits no backend call and leaves its target dirty; and no
operation other than a processing cycle ever clears the dirty flag of a
surviving source, buffer, or context. -/
theorem mutators_dirty_only_commit_cleans (d : Device) (h c : Nat)
    (m : Mutation) (l : ListenerState) (bs : BufferState) :
    ((mutateSource d h m).2 = [] ∧
      ∀ s' ∈ (mutateSource d h m).1.sources, s'.handle = h → s'.dirty = true) ∧
    ((mutateListener d c l).2 = [] ∧
      ∀ c' ∈ (mutateListener d c l).1.contexts, c'.handle = c → c'.dirty = true) ∧
    ((bufferData d h bs).2 = [] ∧
      ∀ b' ∈ (bufferData d h bs).1.buffers, b'.handle = h → b'.dirty = true) ∧
    (∀ op, op ≠ Op.process → WF d →
      (∀ s ∈ d.sources, s.dirty = true →
        ∀ s' ∈ (step d op).1.sources, s'.handle = s.handle → s'.dirty = true) ∧
      (∀ b ∈ d.buffers, b.dirty = true →
        ∀ b' ∈ (step d op).1.buffers, b'.handle = b.handle → b'.dirty = true) ∧
      (∀ c2 ∈ d.contexts, c2.dirty = true →
        ∀ c' ∈ (step d op).1.contexts, c'.handle = c2.handle → c'.dirty = true)) := by
  refine ⟨⟨rfl, ?_⟩, ⟨rfl, ?_⟩, ⟨rfl, ?_⟩, ?_⟩
  · intro s' hs' hh
    have hs2 : s' ∈ d.sources.map (fun t =>
        if t.handle == h then
          { t with state := applyMutation t.state m, dirty := true }
        else t) := hs'
    obtain ⟨t, ht, rfl⟩ := List.mem_map.mp hs2
    by_cases hth : (t.handle == h) = true
    · simp [hth]
    · have hthf : (t.handle == h) = false := by simpa using hth
      rw [if_neg hth] at hh ⊢
      exact absurd hh (beq_eq_false_iff_ne.mp hthf)
  · intro c' hc' hh
    have hc2 : c' ∈ d.contexts.map (fun t =>
        if t.handle == c then { t with listener := l, dirty := true }
        else t) := hc'
    obtain ⟨t, ht, rfl⟩ := List.mem_map.mp hc2
    by_cases hth : (t.handle == c) = true
    · simp [hth]
    · have hthf : (t.handle == c) = false := by simpa using hth
      rw [if_neg hth] at hh ⊢
      exact absurd hh (beq_eq_false_iff_ne.mp hthf)
  · intro b' hb' hh
    have hb2 : b' ∈ d.buffers.map (fun t =>
        if t.handle == h then { t with state := bs, dirty := true }
        else t) := hb'
    obtain ⟨t, ht, rfl⟩ := List.mem_map.mp hb2
    by_cases hth : (t.handle == h) = true
    · simp [hth]
    · have hthf : (t.handle == h) = false := by simpa using hth
      rw [if_neg hth] at hh ⊢
      exact absurd hh (beq_eq_false_iff_ne.mp hthf)
  intro op hop hwf
  obtain ⟨hsnd, hcnd, hbnd, hsb, hcb, hbb, _⟩ := hwf
  have hsnd : (d.sources.map (fun s => s.handle)).Nodup := hsnd
  have hcnd : (d.contexts.map (fun c => c.handle)).Nodup := hcnd
  have hbnd : (d.buffers.map (fun b => b.handle)).Nodup := hbnd
  cases op with
  | mutate h2 m2 =>
    refine ⟨?_, ?_, ?_⟩
    · intro s hs hd s' hs' hh
      have hs2 : s' ∈ d.sources.map (fun t =>
          if t.handle == h2 then
            { t with state := applyMutation t.state m2, dirty := true }
          else t) := hs'
      refine dirty_pres_map (fun s => s.handle) (fun s => s.dirty) hsnd _
        (fun t => ?_) (fun t htd => ?_) hs hd hs2 hh
      · by_cases ht : (t.handle == h2) = true <;> simp [ht]
      · by_cases ht : (t.handle == h2) = true <;> simp [ht, htd]
    · intro b hb hd b' hb' hh
      have hb2 : b' ∈ d.buffers := hb'
      exact dirty_pres_id (fun b => b.handle) (fun b => b.dirty) hbnd hb hd hb2 hh
    · intro c2 hc2 hd c' hc' hh
      have hcc : c' ∈ d.contexts := hc'
      exact dirty_pres_id (fun c => c.handle) (fun c => c.dirty) hcnd hc2 hd hcc hh
  | listener cl ll =>
    refine ⟨?_, ?_, ?_⟩
    · intro s hs hd s' hs' hh
      have hs2 : s' ∈ d.sources := hs'
      exact dirty_pres_id (fun s => s.handle) (fun s => s.dirty) hsnd hs hd hs2 hh
    · intro b hb hd b' hb' hh
      have hb2 : b' ∈ d.buffers := hb'
      exact dirty_pres_id (fun b => b.handle) (fun b => b.dirty) hbnd hb hd hb2 hh
    · intro c2 hc2 hd c' hc' hh
      have hcc : c' ∈ d.contexts.map (fun t =>
          if t.handle == cl then { t with listener := ll, dirty := true }
          else t) := hc'
      refine dirty_pres_map (fun c => c.handle) (fun c => c.dirty) hcnd _
        (fun t => ?_) (fun t htd => ?_) hc2 hd hcc hh
      · by_cases ht : (t.handle == cl) = true <;> simp [ht]
      · by_cases ht : (t.handle == cl) = true <;> simp [ht, htd]
  | bufData h2 bs2 =>
    refine ⟨?_, ?_, ?_⟩
    · intro s hs hd s' hs' hh
      have hs2 : s' ∈ d.sources := hs'
      exact dirty_pres_id (fun s => s.handle) (fun s => s.dirty) hsnd hs hd hs2 hh
    · intro b hb hd b' hb' hh
      have hb2 : b' ∈ d.buffers.map (fun t =>
          if t.handle == h2 then { t with state := bs2, dirty := true }
          else t) := hb'
      refine dirty_pres_map (fun b => b.handle) (fun b => b.dirty) hbnd _
        (fun t => ?_) (fun t htd => ?_) hb hd hb2 hh
      · by_cases ht : (t.handle == h2) = true <;> simp [ht]
      · by_cases ht : (t.handle == h2) = true <;> simp [ht, htd]
    · intro c2 hc2 hd c' hc' hh
      have hcc : c' ∈ d.contexts := hc'
      exact dirty_pres_id (fun c => c.handle) (fun c => c.dirty) hcnd hc2 hd hcc hh
  | allocCtx =>
    refine ⟨?_, ?_, ?_⟩
    · intro s hs hd s' hs' hh
      have hs2 : s' ∈ d.sources := hs'
      exact dirty_pres_id (fun s => s.handle) (fun s => s.dirty) hsnd hs hd hs2 hh
    · intro b hb hd b' hb' hh
      have hb2 : b' ∈ d.buffers := hb'
      exact dirty_pres_id (fun b => b.handle) (fun b => b.dirty) hbnd hb hd hb2 hh
    · intro c2 hc2 hd c' hc' hh
      have hcc : c' ∈ d.contexts ++
          [{ handle := d.nextHandle, listener := ListenerState.initial,
             dirty := false, errorReg := ALenum.noError }] := hc'
      exact dirty_pres_append_fresh (fun c => c.handle) (fun c => c.dirty)
        hcnd hcb _ rfl hc2 hd hcc hh
  | allocSrc ctx2 =>
    by_cases hlt : d.sources.length < d.sourceCeiling
    · refine ⟨?_, ?_, ?_⟩
      · intro s hs hd s' hs' hh
        have hs2 : s' ∈ d.sources ++
            [{ handle := d.nextHandle, ctx := ctx2,
               state := SourceState.initial, dirty := false }] := by
          simpa [step, allocateSource, hlt] using hs'
        exact dirty_pres_append_fresh (fun s => s.handle) (fun s => s.dirty)
          hsnd hsb _ rfl hs hd hs2 hh
      · intro b hb hd b' hb' hh
        have hb2 : b' ∈ d.buffers := by
          simpa [step, allocateSource, hlt] using hb'
        exact dirty_pres_id (fun b => b.handle) (fun b => b.dirty) hbnd hb hd hb2 hh
      · intro c2 hc2 hd c' hc' hh
        have hcc : c' ∈ d.contexts := by
          simpa [step, allocateSource, hlt] using hc'
        exact dirty_pres_id (fun c => c.handle) (fun c => c.dirty) hcnd hc2 hd hcc hh
    · refine ⟨?_, ?_, ?_⟩
      · intro s hs hd s' hs' hh
        have hs2 : s' ∈ d.sources := by
          simpa [step, allocateSource, hlt] using hs'
        exact dirty_pres_id (fun s => s.handle) (fun s => s.dirty) hsnd hs hd hs2 hh
      · intro b hb hd b' hb' hh
        have hb2 : b' ∈ d.buffers := by
          simpa [step, allocateSource, hlt] using hb'
        exact dirty_pres_id (fun b => b.handle) (fun b => b.dirty) hbnd hb hd hb2 hh
      · intro c2 hc2 hd c' hc' hh
        have hcc : c' ∈ d.contexts := by
          simpa [step, allocateSource, hlt] using hc'
        exact dirty_pres_id (fun c => c.handle) (fun c => c.dirty) hcnd hc2 hd hcc hh
  | freeSrc h2 =>
    by_cases hany : d.sources.any (fun s => s.handle == h2) = true
    · refine ⟨?_, ?_, ?_⟩
      · intro s hs hd s' hs' hh
        have hs2 : s' ∈ d.sources.eraseP (fun s => s.handle == h2) := by
          simpa [step, freeSource, hany] using hs'
        exact dirty_pres_eraseP (fun s => s.handle) (fun s => s.dirty) hsnd _
          hs hd hs2 hh
      · intro b hb hd b' hb' hh
        have hb2 : b' ∈ d.buffers := by
          simpa [step, freeSource, hany] using hb'
        exact dirty_pres_id (fun b => b.handle) (fun b => b.dirty) hbnd hb hd hb2 hh
      · intro c2 hc2 hd c' hc' hh
        have hcc : c' ∈ d.contexts := by
          simpa [step, freeSource, hany] using hc'
        exact dirty_pres_id (fun c => c.handle) (fun c => c.dirty) hcnd hc2 hd hcc hh
    · refine ⟨?_, ?_, ?_⟩
      · intro s hs hd s' hs' hh
        have hs2 : s' ∈ d.sources := by
          simpa [step, freeSource, hany] using hs'
        exact dirty_pres_id (fun s => s.handle) (fun s => s.dirty) hsnd hs hd hs2 hh
      · intro b hb hd b' hb' hh
        have hb2 : b' ∈ d.buffers := by
          simpa [step, freeSource, hany] using hb'
        exact dirty_pres_id (fun b => b.handle) (fun b => b.dirty) hbnd hb hd hb2 hh
      · intro c2 hc2 hd c' hc' hh
        have hcc : c' ∈ d.contexts := by
          simpa [step, freeSource, hany] using hc'
        exact dirty_pres_id (fun c => c.handle) (fun c => c.dirty) hcnd hc2 hd hcc hh
  | allocBuf =>
    refine ⟨?_, ?_, ?_⟩
    · intro s hs hd s' hs' hh
      have hs2 : s' ∈ d.sources := hs'
      exact dirty_pres_id (fun s => s.handle) (fun s => s.dirty) hsnd hs hd hs2 hh
    · intro b hb hd b' hb' hh
      have hb2 : b' ∈ d.buffers ++
          [{ handle := d.nextHandle, state := BufferState.initial,
             dirty := false }] := hb'
      exact dirty_pres_append_fresh (fun b => b.handle) (fun b => b.dirty)
        hbnd hbb _ rfl hb hd hb2 hh
    · intro c2 hc2 hd c' hc' hh
      have hcc : c' ∈ d.contexts := hc'
      exact dirty_pres_id (fun c => c.handle) (fun c => c.dirty) hcnd hc2 hd hcc hh
  | freeBuf h2 =>
    by_cases href : bufferReferenced d h2 = true
    · refine ⟨?_, ?_, ?_⟩
      · intro s hs hd s' hs' hh
        have hs2 : s' ∈ d.sources := by
          simpa [step, freeBuffer, href] using hs'
        exact dirty_pres_id (fun s => s.handle) (fun s => s.dirty) hsnd hs hd hs2 hh
      · intro b hb hd b' hb' hh
        have hb2 : b' ∈ d.buffers := by
          simpa [step, freeBuffer, href] using hb'
        exact dirty_pres_id (fun b => b.handle) (fun b => b.dirty) hbnd hb hd hb2 hh
      · intro c2 hc2 hd c' hc' hh
        have hcc : c' ∈ d.contexts := by
          simpa [step, freeBuffer, href] using hc'
        exact dirty_pres_id (fun c => c.handle) (fun c => c.dirty) hcnd hc2 hd hcc hh
    · by_cases hex : d.buffers.any (fun b => b.handle == h2) = true
      · refine ⟨?_, ?_, ?_⟩
        · intro s hs hd s' hs' hh
          have hs2 : s' ∈ d.sources := by
            simpa [step, freeBuffer, href, hex] using hs'
          exact dirty_pres_id (fun s => s.handle) (fun s => s.dirty) hsnd hs hd hs2 hh
        · intro b hb hd b' hb' hh
          have hb2 : b' ∈ d.buffers.eraseP (fun b => b.handle == h2) := by
            simpa [step, freeBuffer, href, hex] using hb'
          exact dirty_pres_eraseP (fun b => b.handle) (fun b => b.dirty) hbnd _
            hb hd hb2 hh
        · intro c2 hc2 hd c' hc' hh
          have hcc : c' ∈ d.contexts := by
            simpa [step, freeBuffer, href, hex] using hc'
          exact dirty_pres_id (fun c => c.handle) (fun c => c.dirty) hcnd hc2 hd hcc hh
      · refine ⟨?_, ?_, ?_⟩
        · intro s hs hd s' hs' hh
          have hs2 : s' ∈ d.sources := by
            simpa [step, freeBuffer, href, hex] using hs'
          exact dirty_pres_id (fun s => s.handle) (fun s => s.dirty) hsnd hs hd hs2 hh
        · intro b hb hd b' hb' hh
          have hb2 : b' ∈ d.buffers := by
            simpa [step, freeBuffer, href, hex] using hb'
          exact dirty_pres_id (fun b => b.handle) (fun b => b.dirty) hbnd hb hd hb2 hh
        · intro c2 hc2 hd c' hc' hh
          have hcc : c' ∈ d.contexts := by
            simpa [step, freeBuffer, href, hex] using hc'
          exact dirty_pres_id (fun c => c.handle) (fun c => c.dirty) hcnd hc2 hd hcc hh
  | getError =>
    refine ⟨?_, ?_, ?_⟩
    · intro s hs hd s' hs' hh
      have hs2 : s' ∈ d.sources := hs'
      exact dirty_pres_id (fun s => s.handle) (fun s => s.dirty) hsnd hs hd hs2 hh
    · intro b hb hd b' hb' hh
      have hb2 : b' ∈ d.buffers := hb'
      exact dirty_pres_id (fun b => b.handle) (fun b => b.dirty) hbnd hb hd hb2 hh
    · intro c2 hc2 hd c' hc' hh
      have hcc : c' ∈ d.contexts := hc'
      exact dirty_pres_id (fun c => c.handle) (fun c => c.dirty) hcnd hc2 hd hcc hh
  | process => exact absurd rfl hop

/-- Witness: the mutator facts and the dirty-preservation fact instantiated
on the concrete devices: a gain mutation leaves the source dirty without a
backend call, and an error query on the all-dirty device clears no dirty
flag. -/
theorem mutators_dirty_only_commit_cleans_witness :
    (mutateSource deviceAtCeiling 1 (Mutation.setGain 7)).2 = [] ∧
    ({ handle := 1, ctx := 0,
       state := { SourceState.initial with gain := 7 },
       dirty := true } : Source).dirty = true ∧
    ({ handle := 2, ctx := 0, state := SourceState.initial,
       dirty := true } : Source).dirty = true := by
  have hmain := mutators_dirty_only_commit_cleans deviceAtCeiling 1 0
    (Mutation.setGain 7) ListenerState.initial BufferState.initial
  have hmain2 := mutators_dirty_only_commit_cleans deviceAllDirty 1 0
    (Mutation.setGain 7) ListenerState.initial BufferState.initial
  refine ⟨hmain.1.1, ?_, ?_⟩
  · exact hmain.1.2
      { handle := 1, ctx := 0,
        state := { SourceState.initial with gain := 7 }, dirty := true }
      (by decide) (by decide)
  · exact (hmain2.2.2.2 Op.getError (by intro hc; cases hc)
        (by unfold WF; decide)).1
      { handle := 2, ctx := 0, state := SourceState.initial, dirty := true }
      (by decide) (by decide)
      { handle := 2, ctx := 0, state := SourceState.initial, dirty := true }
      (by decide) (by decide)

end IoAL
